import Mathlib

/-!
Verification development for the exception unwinder of the HHVM bytecode VM
(`hphp/runtime/vm/unwind.cpp`).  The definitions below are a shallow
embedding of the functions in that file: `checkHandlers`, `tearDownFrame`,
`chainFaultObjects`, `chainFaults`, `unwindPhp` (one outer iteration) and
`unwindCpp`.  State that lives outside the unwinder (opcode classification,
the throwable heap's `previous` property, the fault vector, the frame chain)
is modelled by explicit data; collaborators that live in other files of the
repository (`frame_free_locals_unwind`, `Func::findEH`, the FPI tables) are
modelled from the specification and marked as such in their doc comments.
Stack-memory effects that the claims only constrain by ordering (discarding
temporaries, releasing fault exceptions) are recorded as an event trace.
-/

namespace Unwind

/-- Opcode abstraction: the unwinder only distinguishes `RetC` (constructor
guard), the `FPushCtor*` family (`isFPushCtor`), and member instructions
(`discardMemberTVRefs`); all other opcodes behave alike. -/
inductive Op where
  | retC
  | fPushCtor
  | memberOp
  | other
deriving DecidableEq, Repr

/-- `isFPushCtor` from the opcode tables: true exactly for the
`FPushCtor*` family, collapsed here into one constructor. -/
def isFPushCtor (o : Op) : Bool := o = Op.fPushCtor

/-- `isMemberDimOp || isMemberFinalOp` from the opcode tables, collapsed
into the single `memberOp` constructor. -/
def isMemberOp (o : Op) : Bool := o = Op.memberOp

/-- `EHEnt::Type` from the bytecode metadata. -/
inductive EHType where
  | Catch
  | Fault
deriving DecidableEq, Repr

/-- One exception-handler table entry (`EHEnt`): protected range
`[base, past)`, handler offset `m_handler`, and `m_parentIndex` into the
same table with `-1` as the no-parent sentinel. -/
structure EHEnt where
  type : EHType
  base : Int
  past : Int
  handler : Int
  parentIndex : Int
deriving DecidableEq, Repr

/-- `UnwindAction` from unwind.cpp. -/
inductive UnwindAction where
  | Propagate
  | ResumeVM
deriving DecidableEq, Repr

/-- Step `eh = &func->ehtab()[eh->m_parentIndex]` guarded by
`eh->m_parentIndex != -1`.  Well-formed tables only carry `-1` or a valid
index, so the out-of-range case (undefined behaviour in the source) is
mapped to `none`. -/
def ehParent (tab : List EHEnt) (eh : EHEnt) : Option EHEnt :=
  if eh.parentIndex = -1 then none
  else tab.get? eh.parentIndex.toNat

/-- The loop of `checkHandlers` (unwind.cpp lines 142-167).  The source
iterates a counter `i` upward, skipping entries while
`i < fault.m_handledCount`; the embedding counts the remaining skips
`hc - i` down (`skips`), which is the same function and lets the kernel
evaluate it.  When `skips` reaches zero the source increments
`m_handledCount`, sets `pc` to the handler offset and returns `ResumeVM`
for `Catch` and `Fault` entries alike; if the parent chain ends first it
returns `Propagate` with `pc` and `m_handledCount` untouched. -/
def checkHandlersLoop (tab : List EHEnt) (pc : Int) (hc : Nat) :
    EHEnt → Nat → UnwindAction × Int × Nat
  | eh, 0 =>
    match eh.type with
    | .Catch => (.ResumeVM, eh.handler, hc + 1)
    | .Fault => (.ResumeVM, eh.handler, hc + 1)
  | eh, skips + 1 =>
    match ehParent tab eh with
    | some e => checkHandlersLoop tab pc hc e skips
    | none => (.Propagate, pc, hc)

/-- `checkHandlers(eh, fp, pc, fault)`: `eh` is the innermost entry covering
the fault offset (found by the caller via `findEH`), `hc` the fault's
`m_handledCount` on entry.  The result carries the `UnwindAction`, the
program counter after the call, and `m_handledCount` after the call. -/
def checkHandlers (tab : List EHEnt) (eh : EHEnt) (hc : Nat) (pc : Int) :
    UnwindAction × Int × Nat :=
  checkHandlersLoop tab pc hc eh hc

/-- The `parentIndex` chain viewed as a sequence: `nthInChain tab eh n` is
the `n`-th entry of the chain that starts at `eh` (so `nthInChain tab eh 0 =
some eh`), or `none` if the chain is shorter. -/
def nthInChain (tab : List EHEnt) (eh : EHEnt) : Nat → Option EHEnt
  | 0 => some eh
  | n + 1 =>
    match ehParent tab eh with
    | some e => nthInChain tab e n
    | none => none

theorem checkHandlersLoop_spec (tab : List EHEnt) (pc : Int) (hc : Nat) :
    ∀ (skips : Nat) (eh : EHEnt),
      checkHandlersLoop tab pc hc eh skips =
        match nthInChain tab eh skips with
        | some e => (UnwindAction.ResumeVM, e.handler, hc + 1)
        | none => (UnwindAction.Propagate, pc, hc) := by
  intro skips
  induction skips with
  | zero =>
    intro eh
    cases htype : eh.type <;> simp [checkHandlersLoop, nthInChain, htype]
  | succ n ih =>
    intro eh
    rw [checkHandlersLoop]
    cases hpar : ehParent tab eh with
    | some e =>
      simp only [nthInChain, hpar]
      exact ih e
    | none => simp [nthInChain, hpar]

/-! ## The throwable heap and `chainFaultObjects` -/

/-- The heap of throwable objects, restricted to the one property the
chainer touches: the `previous` slot (property index 6 on `Error` and
`Exception`).  An entry `(x, some j)` means object `x` has an object `j` in
its `previous` slot; `(x, none)` means the slot holds a non-object value
(initially null).  Only throwable objects appear as keys: the source walk
continues through `previous` exactly while the value is an object that is
`instanceof Throwable`, so a `some j` with `j` absent from the heap models a
non-throwable object in the slot (a terminator, overwritable on link). -/
abbrev Heap := List (Nat × Option Nat)

/-- Read the `previous` slot (`propLvalAtOffset(s_previousIdx)`). -/
def lookupPrev : Heap → Nat → Option (Option Nat)
  | [], _ => none
  | kv :: t, x => if kv.1 = x then some kv.2 else lookupPrev t x

/-- `instanceof(SystemLib::s_ThrowableClass)` in the model: a throwable is
an object the heap knows about. -/
def isThrowable (h : Heap) (x : Nat) : Bool := (lookupPrev h x).isSome

/-- `tvSetIgnoreRef(make_tv<KindOfObject>(prev), prevLval)`: overwrite the
`previous` slot of object `s` with object `v`. -/
def setPrev : Heap → Nat → Nat → Heap
  | [], _, _ => []
  | kv :: t, s, v => (if kv.1 = s then (kv.1, some v) else kv) :: setPrev t s v

/-- The `findAcyclicPrev` lambda of `chainFaultObjects` (unwind.cpp lines
354-370): walk `head`'s `previous` pointers, recording each visited object
in `seen`, until the slot holds something that is not a throwable object
(success: return that slot's owner) or an object is revisited (cycle:
return `none`).  The walk is fuelled; `heapFuel` fuel suffices because each
step visits a fresh key of the heap. -/
def fap (h : Heap) : Nat → List Nat → Nat → List Nat × Option Nat
  | 0, seen, _ => (seen, none)
  | fuel + 1, seen, head =>
    if head ∈ seen then (seen, none)
    else
      match lookupPrev h head with
      | none => (head :: seen, none)
      | some none => (head :: seen, some head)
      | some (some j) =>
        if isThrowable h j then fap h fuel (head :: seen) j
        else (head :: seen, some head)

/-- Enough fuel for any walk over `h`: one step per key plus one. -/
def heapFuel (h : Heap) : Nat := h.length + 1

/-- `chainFaultObjects(top, prev)` (unwind.cpp lines 345-378): walk `top`'s
`previous` chain with a fresh `seen` set; if it reaches an unset slot, walk
`prev`'s chain with the *same* `seen` set; if that also succeeds, overwrite
the found slot with `prev`.  Otherwise the heap is left unchanged (the
source additionally decrefs `prev`, which the model does not track). -/
def chainFaultObjects (h : Heap) (top prev : Nat) : Heap :=
  match fap h (heapFuel h) [] top with
  | (_, none) => h
  | (seen1, some s) =>
    if (fap h (heapFuel h) seen1 prev).2.isSome then setPrev h s prev
    else h

/-- A `previous` chain starting at `x` is acyclic when the walk with an
empty `seen` set reaches a terminator instead of revisiting an object. -/
def acyclicFrom (h : Heap) (x : Nat) : Bool :=
  (fap h (heapFuel h) [] x).2.isSome

/-! ### Walk lemmas -/

/-- `Walk h head p s`: `p` is the list of objects visited by a successful
`previous`-chain walk of `h` from `head`, ending at `s` whose slot holds a
terminator (a non-object or a non-throwable object). -/
inductive Walk (h : Heap) : Nat → List Nat → Nat → Prop
  | last (x : Nat)
      (hterm : lookupPrev h x = some none ∨
        ∃ j, lookupPrev h x = some (some j) ∧ isThrowable h j = false) :
      Walk h x [x] x
  | cons (x j : Nat) (p : List Nat) (s : Nat)
      (hx : lookupPrev h x = some (some j)) (hj : isThrowable h j = true)
      (hw : Walk h j p s) : Walk h x (x :: p) s

theorem walk_head {h : Heap} {head : Nat} {p : List Nat} {s : Nat}
    (w : Walk h head p s) : ∃ q, p = head :: q := by
  cases w with
  | last x hterm => exact ⟨[], rfl⟩
  | cons x j q s hx hj hw => exact ⟨q, rfl⟩

theorem walk_last_mem {h : Heap} {head : Nat} {p : List Nat} {s : Nat}
    (w : Walk h head p s) : s ∈ p := by
  induction w with
  | last x hterm => exact List.mem_singleton_self x
  | cons x j q s hx hj hw ih => exact List.mem_cons_of_mem x ih

theorem walk_mem_throwable {h : Heap} {head : Nat} {p : List Nat} {s : Nat}
    (w : Walk h head p s) : ∀ x ∈ p, isThrowable h x = true := by
  induction w with
  | last x hterm =>
    intro y hy
    rw [List.mem_singleton] at hy
    subst hy
    rcases hterm with h1 | ⟨j, h1, _⟩ <;> simp [isThrowable, h1]
  | cons x j q s hx hj hw ih =>
    intro y hy
    rcases List.mem_cons.mp hy with h1 | h1
    · subst h1; simp [isThrowable, hx]
    · exact ih y h1

theorem walk_ext {h h' : Heap} {head : Nat} {p : List Nat} {s : Nat}
    (w : Walk h head p s)
    (hl : ∀ x ∈ p, lookupPrev h' x = lookupPrev h x)
    (ht : ∀ j, isThrowable h' j = isThrowable h j) : Walk h' head p s := by
  induction w with
  | last x hterm =>
    refine Walk.last x ?_
    rcases hterm with h1 | ⟨j, h1, h2⟩
    · exact Or.inl ((hl x (List.mem_singleton_self x)).trans h1)
    · exact Or.inr ⟨j, (hl x (List.mem_singleton_self x)).trans h1, (ht j).trans h2⟩
  | cons x j q s hx hj hw ih =>
    refine Walk.cons x j q s ?_ ?_ ?_
    · exact (hl x (List.mem_cons_self x q)).trans hx
    · exact (ht j).trans hj
    · exact ih fun y hy => hl y (List.mem_cons_of_mem x hy)

/-- Soundness of the fuelled walk: a successful run yields a `Walk`, the
returned `seen` is the reversed path prepended to the old `seen`, the path
is duplicate-free and disjoint from the old `seen`. -/
theorem fap_sound {h : Heap} :
    ∀ (fuel : Nat) (S : List Nat) (head : Nat) (S' : List Nat) (s : Nat),
      fap h fuel S head = (S', some s) →
      ∃ p, Walk h head p s ∧ S' = p.reverse ++ S ∧ p.Nodup ∧ ∀ x ∈ p, x ∉ S := by
  intro fuel
  induction fuel with
  | zero => intro S head S' s hrun; simp [fap] at hrun
  | succ n ih =>
    intro S head S' s hrun
    rw [fap] at hrun
    by_cases hmem : head ∈ S
    · simp [hmem] at hrun
    · rw [if_neg hmem] at hrun
      cases hlk : lookupPrev h head with
      | none => rw [hlk] at hrun; simp at hrun
      | some pv =>
        rw [hlk] at hrun
        cases pv with
        | none =>
          simp only [Prod.mk.injEq, Option.some.injEq] at hrun
          obtain ⟨h1, h2⟩ := hrun
          subst h2
          refine ⟨[head], Walk.last head (Or.inl hlk), ?_, ?_, ?_⟩
          · simp [← h1]
          · simp
          · intro x hx; rw [List.mem_singleton] at hx; subst hx; exact hmem
        | some j =>
          by_cases hthr : isThrowable h j = true
          · rw [show (match some (some j) with
                | none => (head :: S, (none : Option Nat))
                | some none => (head :: S, some head)
                | some (some j) =>
                  if isThrowable h j = true then fap h n (head :: S) j
                  else (head :: S, some head)) =
                (if isThrowable h j = true then fap h n (head :: S) j
                 else (head :: S, some head)) from rfl, if_pos hthr] at hrun
            obtain ⟨p, hwalk, hseen, hnd, hdisj⟩ := ih (head :: S) j S' s hrun
            refine ⟨head :: p, Walk.cons head j p s hlk hthr hwalk, ?_, ?_, ?_⟩
            · rw [hseen]; simp
            · refine List.nodup_cons.mpr ⟨?_, hnd⟩
              intro hc
              exact (hdisj head hc) (List.mem_cons_self head S)
            · intro x hx
              rcases List.mem_cons.mp hx with h1 | h1
              · subst h1; exact hmem
              · intro hxS; exact (hdisj x h1) (List.mem_cons_of_mem head hxS)
          · rw [show (match some (some j) with
                | none => (head :: S, (none : Option Nat))
                | some none => (head :: S, some head)
                | some (some j) =>
                  if isThrowable h j = true then fap h n (head :: S) j
                  else (head :: S, some head)) =
                (if isThrowable h j = true then fap h n (head :: S) j
                 else (head :: S, some head)) from rfl, if_neg hthr] at hrun
            simp only [Prod.mk.injEq, Option.some.injEq] at hrun
            obtain ⟨h1, h2⟩ := hrun
            subst h2
            refine ⟨[head],
              Walk.last head (Or.inr ⟨j, hlk, by simpa using hthr⟩), ?_, ?_, ?_⟩
            · simp [← h1]
            · simp
            · intro x hx; rw [List.mem_singleton] at hx; subst hx; exact hmem

/-- Completeness of the fuelled walk: given a duplicate-free `Walk` disjoint
from `seen` and enough fuel, the walk succeeds and returns exactly the
path. -/
theorem fap_complete {h : Heap} {head : Nat} {p : List Nat} {s : Nat}
    (w : Walk h head p s) :
    ∀ (S : List Nat) (fuel : Nat), p.Nodup → (∀ x ∈ p, x ∉ S) →
      p.length ≤ fuel → fap h fuel S head = (p.reverse ++ S, some s) := by
  induction w with
  | last x hterm =>
    intro S fuel hnd hdisj hlen
    match fuel with
    | 0 => simp at hlen
    | n + 1 =>
      rw [fap]
      have hx : x ∉ S := hdisj x (List.mem_singleton_self x)
      rw [if_neg hx]
      rcases hterm with h1 | ⟨j, h1, h2⟩
      · rw [h1]; simp
      · rw [h1]
        rw [show (match some (some j) with
              | none => (x :: S, (none : Option Nat))
              | some none => (x :: S, some x)
              | some (some j) =>
                if isThrowable h j = true then fap h n (x :: S) j
                else (x :: S, some x)) =
              (if isThrowable h j = true then fap h n (x :: S) j
               else (x :: S, some x)) from rfl]
        rw [if_neg (by simp [h2])]
        simp
  | cons x j p s hx hj hw ih =>
    intro S fuel hnd hdisj hlen
    match fuel with
    | 0 => simp at hlen
    | n + 1 =>
      rw [fap]
      have hxS : x ∉ S := hdisj x (List.mem_cons_self x p)
      rw [if_neg hxS, hx]
      rw [show (match some (some j) with
            | none => (x :: S, (none : Option Nat))
            | some none => (x :: S, some x)
            | some (some j) =>
              if isThrowable h j = true then fap h n (x :: S) j
              else (x :: S, some x)) =
            (if isThrowable h j = true then fap h n (x :: S) j
             else (x :: S, some x)) from rfl]
      rw [if_pos hj]
      have hnd' := (List.nodup_cons.mp hnd).2
      have hxp := (List.nodup_cons.mp hnd).1
      have hdisj' : ∀ y ∈ p, y ∉ x :: S := by
        intro y hy hyc
        rcases List.mem_cons.mp hyc with h1 | h1
        · subst h1; exact hxp hy
        · exact (hdisj y (List.mem_cons_of_mem x hy)) h1
      have hlen' : p.length ≤ n := by simpa using hlen
      rw [ih (x :: S) n hnd' hdisj' hlen']
      simp

theorem lookupPrev_setPrev_ne (h : Heap) (s v x : Nat) (hx : x ≠ s) :
    lookupPrev (setPrev h s v) x = lookupPrev h x := by
  induction h with
  | nil => rfl
  | cons kv t ih =>
    rw [setPrev, lookupPrev, lookupPrev]
    by_cases hk : kv.1 = s
    · rw [if_pos hk]
      have hne : ¬ (kv.1 = x) := by rw [hk]; exact fun hc => hx hc.symm
      simp [hne, ih]
    · rw [if_neg hk]
      by_cases hkx : kv.1 = x
      · simp [hkx]
      · simp [hkx, ih]

theorem lookupPrev_setPrev_self (h : Heap) (s v : Nat)
    (hs : (lookupPrev h s).isSome) :
    lookupPrev (setPrev h s v) s = some (some v) := by
  induction h with
  | nil => simp [lookupPrev] at hs
  | cons kv t ih =>
    rw [setPrev, lookupPrev]
    by_cases hk : kv.1 = s
    · simp [hk]
    · rw [if_neg hk, if_neg hk]
      rw [lookupPrev, if_neg hk] at hs
      exact ih hs

theorem lookupPrev_setPrev_isSome (h : Heap) (s v x : Nat) :
    (lookupPrev (setPrev h s v) x).isSome = (lookupPrev h x).isSome := by
  induction h with
  | nil => rfl
  | cons kv t ih =>
    rw [setPrev, lookupPrev, lookupPrev]
    by_cases hk : kv.1 = s
    · rw [if_pos hk]
      dsimp only
      by_cases hx : kv.1 = x
      · rw [if_pos hx, if_pos hx]; rfl
      · rw [if_neg hx, if_neg hx]; exact ih
    · rw [if_neg hk]
      by_cases hx : kv.1 = x
      · rw [if_pos hx, if_pos hx]
      · rw [if_neg hx, if_neg hx]; exact ih

theorem isThrowable_setPrev (h : Heap) (s v x : Nat) :
    isThrowable (setPrev h s v) x = isThrowable h x := by
  unfold isThrowable
  exact lookupPrev_setPrev_isSome h s v x

/-- Linking `prev` into the terminator slot `s` of a walk from `top`
produces a successful walk from `top` through `prev`'s walk, provided the
two paths are disjoint. -/
theorem walk_link {h : Heap} {top : Nat} {p1 : List Nat} {s : Nat}
    (w1 : Walk h top p1 s) {prev : Nat} {p2 : List Nat} {s2 : Nat}
    (w2 : Walk h prev p2 s2) (hnd1 : p1.Nodup)
    (hdisj : ∀ x ∈ p2, x ∉ p1) (hprev : isThrowable h prev = true) :
    Walk (setPrev h s prev) top (p1 ++ p2) s2 := by
  revert hnd1 hdisj
  induction w1 with
  | last x hterm =>
    intro hnd1 hdisj
    have hxdom : (lookupPrev h x).isSome := by
      rcases hterm with h1 | ⟨j, h1, _⟩ <;> simp [h1]
    have hlk : lookupPrev (setPrev h x prev) x = some (some prev) :=
      lookupPrev_setPrev_self h x prev hxdom
    have hthr : isThrowable (setPrev h x prev) prev = true := by
      rw [isThrowable_setPrev]; exact hprev
    have hw2' : Walk (setPrev h x prev) prev p2 s2 := by
      refine walk_ext w2 ?_ ?_
      · intro y hy
        have hyx : y ≠ x := by
          intro hc; subst hc
          exact (hdisj y hy) (List.mem_singleton_self y)
        exact lookupPrev_setPrev_ne h x prev y hyx
      · intro j; exact isThrowable_setPrev h x prev j
    exact Walk.cons x prev p2 s2 hlk hthr hw2'
  | cons x j q s hx hj hw ih =>
    intro hnd1 hdisj
    have hxq : x ∉ q := (List.nodup_cons.mp hnd1).1
    have hndq : q.Nodup := (List.nodup_cons.mp hnd1).2
    have hsq : s ∈ q := walk_last_mem hw
    have hxs : x ≠ s := fun hc => hxq (hc ▸ hsq)
    have hdisjq : ∀ y ∈ p2, y ∉ q := by
      intro y hy hyq
      exact (hdisj y hy) (List.mem_cons_of_mem x hyq)
    have hrec : Walk (setPrev h s prev) j (q ++ p2) s2 := ih hndq hdisjq
    have hlk : lookupPrev (setPrev h s prev) x = some (some j) := by
      rw [lookupPrev_setPrev_ne h s prev x hxs]; exact hx
    have hthr : isThrowable (setPrev h s prev) j = true := by
      rw [isThrowable_setPrev]; exact hj
    exact Walk.cons x j (q ++ p2) s2 hlk hthr hrec

/-- The walks performed by `chainFaultObjects`, made explicit: either the
cycle check refused the link and the heap is unchanged, or a link was made
and the walks that justified it are returned. -/
theorem chainFaultObjects_cases (h : Heap) (top prev : Nat) :
    chainFaultObjects h top prev = h ∨
      ∃ S1 s S2 s2,
        fap h (heapFuel h) [] top = (S1, some s) ∧
        fap h (heapFuel h) S1 prev = (S2, some s2) ∧
        chainFaultObjects h top prev = setPrev h s prev := by
  rcases hfap1 : fap h (heapFuel h) [] top with ⟨S1, o1⟩
  cases o1 with
  | none =>
    left
    unfold chainFaultObjects
    rw [hfap1]
  | some s =>
    rcases hfap2 : fap h (heapFuel h) S1 prev with ⟨S2, o2⟩
    cases o2 with
    | none =>
      left
      unfold chainFaultObjects
      rw [hfap1]
      simp [hfap2]
    | some s2 =>
      right
      refine ⟨S1, s, S2, s2, rfl, hfap2, ?_⟩
      unfold chainFaultObjects
      rw [hfap1]
      simp [hfap2]

theorem length_setPrev (h : Heap) (s v : Nat) :
    (setPrev h s v).length = h.length := by
  induction h with
  | nil => rfl
  | cons kv t ih => rw [setPrev, List.length_cons, List.length_cons, ih]

theorem lookupPrev_isSome_mem_keys (h : Heap) (x : Nat)
    (hx : (lookupPrev h x).isSome) : x ∈ h.map Prod.fst := by
  induction h with
  | nil => simp [lookupPrev] at hx
  | cons kv t ih =>
    rw [lookupPrev] at hx
    by_cases hk : kv.1 = x
    · simp [← hk]
    · rw [if_neg hk] at hx
      simp only [List.map_cons, List.mem_cons]
      exact Or.inr (ih hx)

/-- A duplicate-free list of throwables of `h` is no longer than `h`. -/
theorem nodup_throwable_length_le (h : Heap) (p : List Nat) (hnd : p.Nodup)
    (ht : ∀ x ∈ p, isThrowable h x = true) : p.length ≤ h.length := by
  have hsub : p.toFinset ⊆ (h.map Prod.fst).toFinset := by
    intro x hx
    rw [List.mem_toFinset] at hx ⊢
    have hthr := ht x hx
    rw [isThrowable] at hthr
    exact lookupPrev_isSome_mem_keys h x hthr
  have h1 : p.toFinset.card = p.length := List.toFinset_card_of_nodup hnd
  have h3 := Finset.card_le_card hsub
  rw [h1] at h3
  calc p.length ≤ (h.map Prod.fst).toFinset.card := h3
    _ ≤ (h.map Prod.fst).length := List.toFinset_card_le (h.map Prod.fst)
    _ = h.length := by simp

/-- C5 (amended): for throwable objects `top` and `prev`, `chainFaultObjects`
either leaves the heap unchanged (the cycle check released the predecessor
without linking) or makes the link, and a link is made only if `top`'s
`previous` chain reaches an unset slot without revisiting a node and
`prev`'s chain is itself acyclic; after a link the resulting `previous`
chain from `top` contains no cycle.  (The original claim asserted an
acyclic result for *every* initial configuration; a pre-existing cycle that
prevents the link persists, see the counterexample.) -/
theorem chainFaultObjects_no_new_cycle (h : Heap) (top prev : Nat)
    (htop : isThrowable h top = true) (hprev : isThrowable h prev = true) :
    chainFaultObjects h top prev = h ∨
      (acyclicFrom h top = true ∧ acyclicFrom h prev = true ∧
        acyclicFrom (chainFaultObjects h top prev) top = true) := by
  rcases chainFaultObjects_cases h top prev with hsame |
    ⟨S1, s, S2, s2, hfap1, hfap2, hval⟩
  · exact Or.inl hsame
  · right
    obtain ⟨p1, w1, hS1, hnd1, hd1⟩ := fap_sound (heapFuel h) [] top S1 s hfap1
    obtain ⟨p2, w2, hS2, hnd2, hdisj2⟩ :=
      fap_sound (heapFuel h) S1 prev S2 s2 hfap2
    refine ⟨?_, ?_, ?_⟩
    · unfold acyclicFrom
      rw [hfap1]
      rfl
    · unfold acyclicFrom
      have hlen2 : p2.length ≤ heapFuel h := by
        have hb := nodup_throwable_length_le h p2 hnd2 (walk_mem_throwable w2)
        unfold heapFuel
        omega
      rw [fap_complete w2 [] (heapFuel h) hnd2
        (by intro x hx; exact List.not_mem_nil x) hlen2]
      rfl
    · rw [hval]
      have hdisj21 : ∀ x ∈ p2, x ∉ p1 := by
        intro x hx hxp1
        apply hdisj2 x hx
        rw [hS1]
        simpa using List.mem_reverse.mpr hxp1
      have hw' : Walk (setPrev h s prev) top (p1 ++ p2) s2 :=
        walk_link w1 w2 hnd1 hdisj21 hprev
      have hnd12 : (p1 ++ p2).Nodup :=
        List.Nodup.append hnd1 hnd2 (fun a ha hb => hdisj21 a hb ha)
      have hlen12 : (p1 ++ p2).length ≤ heapFuel (setPrev h s prev) := by
        have hb := nodup_throwable_length_le (setPrev h s prev) (p1 ++ p2)
          hnd12 (walk_mem_throwable hw')
        rw [heapFuel, length_setPrev]
        rw [length_setPrev] at hb
        omega
      unfold acyclicFrom
      rw [fap_complete hw' [] (heapFuel (setPrev h s prev)) hnd12
        (by intro x hx; exact List.not_mem_nil x) hlen12]
      rfl

/-- C5 (counterexample to the claim as stated): object 5's `previous` slot
already points back to object 5 itself (a cycle); object 7's slot is unset.
Running the chainer on the pair `(5, 7)` leaves the heap unchanged and the
`previous` chain of the current exception still contains a cycle, so "for
every pair ... in any initial configuration, after the Exception Chainer
runs the resulting previous chain contains no cycle" is false. -/
theorem chainFaultObjects_cycle_persists :
    chainFaultObjects [(5, some 5), (7, none)] 5 7 = [(5, some 5), (7, none)] ∧
      acyclicFrom [(5, some 5), (7, none)] 5 = false := by decide

/-- Witness for `chainFaultObjects_no_new_cycle` at a concrete heap: two
throwables with unset `previous` slots; the link is made and the resulting
chain is acyclic. -/
theorem chainFaultObjects_no_new_cycle_witness :
    isThrowable [(1, none), (2, none)] 1 = true ∧
      isThrowable [(1, none), (2, none)] 2 = true ∧
      (chainFaultObjects [(1, none), (2, none)] 1 2 = [(1, none), (2, none)] ∨
        (acyclicFrom [(1, none), (2, none)] 1 = true ∧
          acyclicFrom [(1, none), (2, none)] 2 = true ∧
          acyclicFrom (chainFaultObjects [(1, none), (2, none)] 1 2) 1 = true)) :=
  ⟨by decide, by decide,
    chainFaultObjects_no_new_cycle [(1, none), (2, none)] 1 2
      (by decide) (by decide)⟩

/-! ## Fault records and `chainFaults` -/

/-- A `Fault` record.  Frames are identified by a numeric id
(`raiseFrame = none` models a null `m_raiseFrame`); the sentinels
`kInvalidOffset` and `kInvalidNesting` are modelled by `none`. -/
structure Fault where
  userException : Nat
  raiseFrame : Option Nat
  raiseOffset : Option Int
  raiseNesting : Option Nat
  handledCount : Nat
deriving DecidableEq, Repr

/-- Result of `chainFaults`: its boolean return value, the fault stack
after the call, the (possibly updated) local fault copy, and the throwable
heap after the call. -/
structure ChainResult where
  merged : Bool
  faults : List Fault
  fault : Fault
  heap : Heap
deriving DecidableEq, Repr

/-- `chainFaults(fault)` (unwind.cpp lines 380-400).  The fault stack is a
list whose head is the top (`back()`).  The stale top is popped; if the
stack becomes empty the local fault is pushed back and `false` returned
(the source's `always_assert` rules out an initially empty stack, so that
case is modelled like the singleton case).  Otherwise, if the record
beneath was raised at the same `(raiseNesting, raiseFrame)`, the local
fault adopts its `raiseOffset` and `handledCount`, the two guest exceptions
are chained via `chainFaultObjects`, and the two records are replaced by
the merged one. -/
def chainFaults (heap : Heap) (faults : List Fault) (fault : Fault) :
    ChainResult :=
  match faults with
  | [] => { merged := false, faults := [fault], fault := fault, heap := heap }
  | _ :: rest =>
    match rest with
    | [] => { merged := false, faults := [fault], fault := fault, heap := heap }
    | prev :: rest2 =>
      if fault.raiseNesting = prev.raiseNesting ∧
          fault.raiseFrame = prev.raiseFrame then
        let fm : Fault :=
          { fault with raiseOffset := prev.raiseOffset,
                       handledCount := prev.handledCount }
        { merged := true,
          faults := fm :: rest2,
          fault := fm,
          heap := chainFaultObjects heap fault.userException
                    prev.userException }
      else
        { merged := false, faults := fault :: prev :: rest2, fault := fault,
          heap := heap }

/-- C4 (amended): the chainer merges the top fault with the record beneath
it iff that record has the same `raiseNesting` and `raiseFrame`; on a merge
the top fault adopts the predecessor's `raiseOffset` and `handledCount`,
the predecessor's guest exception is handed to `chainFaultObjects` (which
links it as the current exception's `previous` unless its cycle check
refuses, see C5), the top two records are replaced by the merged record,
and `true` is returned exactly when a merge occurred.  (The original claim
asserted the link unconditionally; the cycle check can suppress it, see the
counterexample.) -/
theorem chainFaults_spec (heap : Heap) (faults : List Fault) (fault : Fault)
    (hne : faults ≠ []) :
    ((chainFaults heap faults fault).merged = true ↔
      ∃ t prev rest2, faults = t :: prev :: rest2 ∧
        fault.raiseNesting = prev.raiseNesting ∧
        fault.raiseFrame = prev.raiseFrame) ∧
    (∀ t prev rest2, faults = t :: prev :: rest2 →
      fault.raiseNesting = prev.raiseNesting →
      fault.raiseFrame = prev.raiseFrame →
      (chainFaults heap faults fault).fault.raiseOffset = prev.raiseOffset ∧
      (chainFaults heap faults fault).fault.handledCount = prev.handledCount ∧
      (chainFaults heap faults fault).fault.userException =
        fault.userException ∧
      (chainFaults heap faults fault).faults =
        (chainFaults heap faults fault).fault :: rest2 ∧
      (chainFaults heap faults fault).heap =
        chainFaultObjects heap fault.userException prev.userException) ∧
    ((chainFaults heap faults fault).merged = false →
      (chainFaults heap faults fault).faults = fault :: faults.tail ∧
      (chainFaults heap faults fault).heap = heap ∧
      (chainFaults heap faults fault).fault = fault) := by
  match faults with
  | [] => exact absurd rfl hne
  | [t] =>
    refine ⟨?_, ?_, ?_⟩
    · simp [chainFaults]
    · intro t' prev rest2 hshape
      simp at hshape
    · intro _
      simp [chainFaults]
  | t :: prev :: rest2 =>
    by_cases hcond : fault.raiseNesting = prev.raiseNesting ∧
        fault.raiseFrame = prev.raiseFrame
    · refine ⟨?_, ?_, ?_⟩
      · simp only [chainFaults, if_pos hcond]
        constructor
        · intro _
          exact ⟨t, prev, rest2, rfl, hcond.1, hcond.2⟩
        · intro _
          trivial
      · intro t' prev' rest2' hshape h1 h2
        obtain ⟨ht, hprev, hrest⟩ : t = t' ∧ prev = prev' ∧ rest2 = rest2' := by
          simpa using hshape
        subst ht; subst hprev; subst hrest
        simp [chainFaults, if_pos hcond]
      · intro hmf
        simp [chainFaults, if_pos hcond] at hmf
    · refine ⟨?_, ?_, ?_⟩
      · simp only [chainFaults, if_neg hcond]
        constructor
        · intro hc
          simp at hc
        · intro ⟨t', prev', rest2', hshape, h1, h2⟩
          obtain ⟨ht, hprev, hrest⟩ : t = t' ∧ prev = prev' ∧ rest2 = rest2' := by
            simpa using hshape
          subst hprev
          exact absurd ⟨h1, h2⟩ hcond
      · intro t' prev' rest2' hshape h1 h2
        obtain ⟨ht, hprev, hrest⟩ : t = t' ∧ prev = prev' ∧ rest2 = rest2' := by
          simpa using hshape
        subst hprev
        exact absurd ⟨h1, h2⟩ hcond
      · intro _
        simp [chainFaults, if_neg hcond]

/-- A fault used by concrete counterexamples and witnesses: raised in frame
1 at nesting 0, with the guest exception being object 5 of the example
heap. -/
def cexTopFault : Fault :=
  { userException := 5, raiseFrame := some 1, raiseOffset := some 20,
    raiseNesting := some 0, handledCount := 2 }

/-- The record beneath `cexTopFault`: same frame and nesting, exception
object 7. -/
def cexPrevFault : Fault :=
  { userException := 7, raiseFrame := some 1, raiseOffset := some 10,
    raiseNesting := some 0, handledCount := 1 }

/-- C4 (counterexample to the claim as stated): the records match on
`(raiseNesting, raiseFrame)` so a merge occurs and `true` is returned, but
because the current exception's `previous` chain is cyclic (object 5 points
to itself) the predecessor's guest exception is *not* linked as the current
exception's `previous`: the heap is unchanged and object 5's `previous`
still is object 5, not object 7. -/
theorem chainFaults_merge_without_link :
    (chainFaults [(5, some 5), (7, none)] [cexTopFault, cexPrevFault]
        cexTopFault).merged = true ∧
    (chainFaults [(5, some 5), (7, none)] [cexTopFault, cexPrevFault]
        cexTopFault).heap = [(5, some 5), (7, none)] ∧
    lookupPrev (chainFaults [(5, some 5), (7, none)]
        [cexTopFault, cexPrevFault] cexTopFault).heap 5 ≠ some (some 7) := by
  decide

/-- Witness for `chainFaults_spec`: on a two-record stack raised at the same
nesting and frame, the merged fault carries the predecessor's
`handledCount`. -/
theorem chainFaults_spec_witness :
    ([cexTopFault, cexPrevFault] : List Fault) ≠ [] ∧
      (chainFaults [] [cexTopFault, cexPrevFault]
          cexTopFault).fault.handledCount = 1 :=
  ⟨by decide,
    ((chainFaults_spec [] [cexTopFault, cexPrevFault] cexTopFault
        (by decide)).2.1 cexTopFault cexPrevFault [] rfl (by decide)
        (by decide)).2.1.trans (by decide)⟩

/-- C1 (amended): for every handler table, start entry, `handledCount = n`
and program counter, `checkHandlers` walks the `parentIndex` chain from the
innermost covering entry, skipping the first `n` entries (exactly the ones
already considered; the original claim said `n - 1`): if the chain has an
entry at position `n` it is the candidate, and for a candidate of kind
`Catch` or `Fault` alike the program counter is set to its `handlerOffset`,
`handledCount` is incremented by exactly one (to `n + 1`), and `ResumeVM`
is signalled; if the chain is exhausted, `Propagate` is signalled with
`handledCount` and the program counter unchanged. -/
theorem checkHandlers_eq_chainWalk (tab : List EHEnt) (eh : EHEnt) (hc : Nat)
    (pc : Int) :
    checkHandlers tab eh hc pc =
      match nthInChain tab eh hc with
      | some e => (UnwindAction.ResumeVM, e.handler, hc + 1)
      | none => (UnwindAction.Propagate, pc, hc) := by
  exact checkHandlersLoop_spec tab pc hc hc eh

/-- Handler-table entry used by the C1 counterexample: the outer protected
region, handler at offset 100, no parent. -/
def ehOuter : EHEnt :=
  { type := EHType.Catch, base := 0, past := 100, handler := 100,
    parentIndex := -1 }

/-- Handler-table entry used by the C1 counterexample: the inner protected
region, handler at offset 40, parent is `ehOuter` (table index 0). -/
def ehInner : EHEnt :=
  { type := EHType.Fault, base := 10, past := 30, handler := 40,
    parentIndex := 0 }

/-- C1 (counterexample to the claim as stated): with `handledCount = 1` the
claim prescribes skipping `1 - 1 = 0` entries, making the innermost entry
`ehInner` the candidate and setting the program counter to its handler
offset 40.  The code instead skips the first `handledCount = 1` entries of
the chain and enters the parent `ehOuter`'s handler at offset 100. -/
theorem checkHandlers_skips_hc_entries :
    checkHandlers [ehOuter, ehInner] ehInner 1 20 =
      (UnwindAction.ResumeVM, 100, 2) ∧
    ehInner.handler = 40 ∧ (100 : Int) ≠ 40 := by decide

/-! ## Frames and `tearDownFrame` -/

/-- The function-kind classification used by `tearDownFrame`'s dispatch:
`isAsyncFunction`, `isAsyncGenerator`, `isNonAsyncGenerator`, or none of
those (a regular function). -/
inductive FuncKind where
  | regular
  | asyncFunction
  | asyncGenerator
  | nonAsyncGenerator
deriving DecidableEq, Repr

/-- One activation record together with the projections of external state
the unwinder reads about it.  `outerFpiOp` summarises the caller-side
lookup `getPrevVMState` + `findPrecedingFPI` (both live outside
unwind.cpp): `none` = no outer VM state, `some none` = no preceding FPI
entry in the caller, `some (some op)` = the opcode at the found FPI entry's
`m_fpushOff`.  `curOp` is `peek_op(pc)` at the moment the frame is
processed. -/
structure Frame where
  id : Nat
  kind : FuncKind
  resumed : Bool
  isFCallAwait : Bool
  localsDecRefd : Bool
  funcCls : Bool
  hasThis : Bool
  thisCtorIsFunc : Bool
  thisClsHasDtor : Bool
  thisNoDestruct : Bool
  outerFpiOp : Option (Option Op)
  whRunning : Bool
  genEager : Bool
  genWhRunning : Bool
  genFailEager : Bool
  curOp : Op
  soff : Int
  funcBase : Int
  ehtab : List EHEnt
deriving DecidableEq, Repr

/-- Observable actions of the unwinder whose ordering the claims constrain;
stack-memory contents themselves are not modelled. -/
inductive Event where
  | decRefFaultExn (e : Nat)
  | discardTemps
  | releaseLocals (frameId : Nat)
  | whCreateFailed (e : Nat)
  | whFail (e : Nat)
  | whFailCpp
  | genFail (e : Nat)
  | genFailCpp
  | genFinish
  | pushEagerResult
  | clearMemberRefs
  | rethrowHost
deriving DecidableEq, Repr

/-- Modelled from the spec: `frame_free_locals_unwind` lives in the
runtime, outside unwind.cpp.  Per the spec it releases the frame's locals
and `this`, running destructors except for objects marked *no-destruct*,
and a destructor may itself raise a guest exception (the `dtorRaise`
oracle), which the caller must swallow.  The model returns whether the
receiver's destructor would run and the exception the release raised, if
any. -/
def frameFreeLocalsUnwind (fr : Frame) (dtorRaise : Option Nat) :
    Bool × Option Nat :=
  (fr.hasThis && fr.thisClsHasDtor && !fr.thisNoDestruct, dtorRaise)

/-- Result of the `decRefLocals` closure: the frame afterwards, whether the
release routine ran in this call, whether the receiver's destructor ran,
and the emitted events. -/
structure ReleaseResult where
  frame : Frame
  releasedNow : Bool
  ranThisDtor : Bool
  events : List Event
deriving DecidableEq, Repr

/-- The `decRefLocals` closure of `tearDownFrame` (unwind.cpp lines
218-247): if the frame's sticky `localsDecRefd` latch is clear, set it and
invoke `frame_free_locals_unwind` inside `try { ... } catch (...) {}`; a
guest exception raised by a destructor is swallowed — the two match arms
below are identical, mirroring the empty catch-all. -/
def decRefLocals (fr : Frame) (dtorRaise : Option Nat) : ReleaseResult :=
  if fr.localsDecRefd then
    { frame := fr, releasedNow := false, ranThisDtor := false, events := [] }
  else
    match frameFreeLocalsUnwind { fr with localsDecRefd := true } dtorRaise with
    | (ran, none) =>
      { frame := { fr with localsDecRefd := true }, releasedNow := true,
        ranThisDtor := ran, events := [Event.releaseLocals fr.id] }
    | (ran, some _) =>
      { frame := { fr with localsDecRefd := true }, releasedNow := true,
        ranThisDtor := ran, events := [Event.releaseLocals fr.id] }

/-- The constructor guard of `tearDownFrame` (unwind.cpp lines 198-215):
the current opcode is not `RetC`, locals have not been released, the
function belongs to a class, the frame has a `this` whose class's
constructor is this function and whose class has a destructor, and the
caller's FPI region confirms the call was set up by an `FPushCtor*`
instruction. -/
def ctorGuard (fr : Frame) : Bool :=
  !(fr.curOp == Op.retC) && !fr.localsDecRefd && fr.funcCls && fr.hasThis &&
    fr.thisCtorIsFunc && fr.thisClsHasDtor &&
    (match fr.outerFpiOp with
     | some (some op) => isFPushCtor op
     | _ => false)

/-- `fp->getThis()->setNoDestruct()` under the guard. -/
def applyCtorGuard (fr : Frame) : Frame :=
  if ctorGuard fr then { fr with thisNoDestruct := true } else fr

/-- Result of the per-kind dispatch of `tearDownFrame`. -/
structure BranchResult where
  frame : Frame
  releasedNow : Bool
  ranThisDtor : Bool
  events : List Event
  exn : Option Nat
deriving DecidableEq, Repr

/-- The per-frame-kind dispatch of `tearDownFrame` (unwind.cpp lines
249-305).  A non-resumed frame always releases locals, and an eagerly
executed async function with a guest exception wraps it into a failed
static wait-handle (consuming it); a resumed async function fails its
wait-handle on a guest exception, or marks it abruptly interrupted on a
host exception only while it is running; a resumed async generator behaves
analogously; a non-async generator is marked finished; a resumed frame of
a regular function hits `not_reached()` in the source (the model passes
the exception through unchanged there). -/
def tearDownBranch (fr : Frame) (phpException dtorRaise : Option Nat) :
    BranchResult :=
  if fr.resumed = false then
    match phpException with
    | some e =>
      if fr.kind = FuncKind.asyncFunction ∧ fr.isFCallAwait = false then
        { frame := (decRefLocals fr dtorRaise).frame,
          releasedNow := (decRefLocals fr dtorRaise).releasedNow,
          ranThisDtor := (decRefLocals fr dtorRaise).ranThisDtor,
          events := (decRefLocals fr dtorRaise).events ++
            [Event.whCreateFailed e],
          exn := none }
      else
        { frame := (decRefLocals fr dtorRaise).frame,
          releasedNow := (decRefLocals fr dtorRaise).releasedNow,
          ranThisDtor := (decRefLocals fr dtorRaise).ranThisDtor,
          events := (decRefLocals fr dtorRaise).events,
          exn := some e }
    | none =>
      { frame := (decRefLocals fr dtorRaise).frame,
        releasedNow := (decRefLocals fr dtorRaise).releasedNow,
        ranThisDtor := (decRefLocals fr dtorRaise).ranThisDtor,
        events := (decRefLocals fr dtorRaise).events,
        exn := none }
  else if fr.kind = FuncKind.asyncFunction then
    match phpException with
    | some e =>
      { frame := (decRefLocals fr dtorRaise).frame,
        releasedNow := (decRefLocals fr dtorRaise).releasedNow,
        ranThisDtor := (decRefLocals fr dtorRaise).ranThisDtor,
        events := (decRefLocals fr dtorRaise).events ++ [Event.whFail e],
        exn := none }
    | none =>
      if fr.whRunning then
        { frame := (decRefLocals fr dtorRaise).frame,
          releasedNow := (decRefLocals fr dtorRaise).releasedNow,
          ranThisDtor := (decRefLocals fr dtorRaise).ranThisDtor,
          events := (decRefLocals fr dtorRaise).events ++ [Event.whFailCpp],
          exn := none }
      else
        { frame := fr, releasedNow := false, ranThisDtor := false,
          events := [], exn := none }
  else if fr.kind = FuncKind.asyncGenerator then
    match phpException with
    | some e =>
      { frame := (decRefLocals fr dtorRaise).frame,
        releasedNow := (decRefLocals fr dtorRaise).releasedNow,
        ranThisDtor := (decRefLocals fr dtorRaise).ranThisDtor,
        events := (decRefLocals fr dtorRaise).events ++ [Event.genFail e] ++
          (if fr.genFailEager then [Event.pushEagerResult] else []),
        exn := none }
    | none =>
      if fr.genEager || fr.genWhRunning then
        { frame := (decRefLocals fr dtorRaise).frame,
          releasedNow := (decRefLocals fr dtorRaise).releasedNow,
          ranThisDtor := (decRefLocals fr dtorRaise).ranThisDtor,
          events := (decRefLocals fr dtorRaise).events ++ [Event.genFailCpp],
          exn := none }
      else
        { frame := fr, releasedNow := false, ranThisDtor := false,
          events := [], exn := none }
  else if fr.kind = FuncKind.nonAsyncGenerator then
    { frame := (decRefLocals fr dtorRaise).frame,
      releasedNow := (decRefLocals fr dtorRaise).releasedNow,
      ranThisDtor := (decRefLocals fr dtorRaise).ranThisDtor,
      events := (decRefLocals fr dtorRaise).events ++ [Event.genFinish],
      exn := phpException }
  else
    { frame := fr, releasedNow := false, ranThisDtor := false, events := [],
      exn := phpException }

/-- The full result of `tearDownFrame`: the torn frame's final flags, the
new `vmfp`/`vmpc`, the exception to continue propagating, and the release
bookkeeping. -/
structure TearResult where
  frame : Frame
  fp : Option Frame
  pc : Option Int
  exn : Option Nat
  releasedNow : Bool
  ranThisDtor : Bool
  events : List Event
deriving DecidableEq, Repr

/-- Epilogue of `tearDownFrame` (unwind.cpp lines 307-322): at the final
activation record of the nesting, null out `fp` and `pc`; otherwise resume
the caller at `soff + prevFp->func()->base()`. -/
def assembleTear (b : BranchResult) (soff : Int) (prevFp : Option Frame) :
    TearResult :=
  match prevFp with
  | none =>
    { frame := b.frame, fp := none, pc := none, exn := b.exn,
      releasedNow := b.releasedNow, ranThisDtor := b.ranThisDtor,
      events := b.events }
  | some caller =>
    { frame := b.frame, fp := some caller,
      pc := some (soff + caller.funcBase), exn := b.exn,
      releasedNow := b.releasedNow, ranThisDtor := b.ranThisDtor,
      events := b.events }

/-- `tearDownFrame(fp, stack, pc, phpException)` (unwind.cpp lines
177-322): apply the constructor guard, dispatch on the frame kind, then
advance to the caller.  `prevFp` models `fp->sfp()`; `dtorRaise` is the
destructor-raise oracle threaded into the locals release. -/
def tearDownFrame (fr0 : Frame) (prevFp : Option Frame)
    (phpException dtorRaise : Option Nat) : TearResult :=
  assembleTear (tearDownBranch (applyCtorGuard fr0) phpException dtorRaise)
    fr0.soff prevFp

theorem decRefLocals_swallows (fr : Frame) (d1 d2 : Option Nat) :
    decRefLocals fr d1 = decRefLocals fr d2 := by
  cases d1 <;> cases d2 <;> rfl

theorem decRefLocals_releasedNow (fr : Frame) (d : Option Nat) :
    (decRefLocals fr d).releasedNow = !fr.localsDecRefd := by
  rw [decRefLocals_swallows fr d none]
  unfold decRefLocals
  by_cases hl : fr.localsDecRefd <;> simp [hl, frameFreeLocalsUnwind]

theorem decRefLocals_frame_eq (fr : Frame) (d : Option Nat) :
    (decRefLocals fr d).frame = { fr with localsDecRefd := true } := by
  rw [decRefLocals_swallows fr d none]
  unfold decRefLocals
  by_cases hl : fr.localsDecRefd
  · simp only [hl, if_true]
    cases fr
    simp_all
  · simp [hl, frameFreeLocalsUnwind]

theorem decRefLocals_ranThisDtor (fr : Frame) (d : Option Nat) :
    (decRefLocals fr d).ranThisDtor =
      (!fr.localsDecRefd &&
        (fr.hasThis && fr.thisClsHasDtor && !fr.thisNoDestruct)) := by
  rw [decRefLocals_swallows fr d none]
  unfold decRefLocals frameFreeLocalsUnwind
  by_cases hl : fr.localsDecRefd <;> simp [hl]

theorem tearDownBranch_swallows (fr : Frame) (e d1 d2 : Option Nat) :
    tearDownBranch fr e d1 = tearDownBranch fr e d2 := by
  unfold tearDownBranch
  rw [decRefLocals_swallows fr d1 d2]

theorem tearDownFrame_proj (fr : Frame) (prevFp : Option Frame)
    (e d : Option Nat) :
    (tearDownFrame fr prevFp e d).frame =
      (tearDownBranch (applyCtorGuard fr) e d).frame ∧
    (tearDownFrame fr prevFp e d).releasedNow =
      (tearDownBranch (applyCtorGuard fr) e d).releasedNow ∧
    (tearDownFrame fr prevFp e d).ranThisDtor =
      (tearDownBranch (applyCtorGuard fr) e d).ranThisDtor ∧
    (tearDownFrame fr prevFp e d).exn =
      (tearDownBranch (applyCtorGuard fr) e d).exn ∧
    (tearDownFrame fr prevFp e d).events =
      (tearDownBranch (applyCtorGuard fr) e d).events := by
  cases prevFp <;> exact ⟨rfl, rfl, rfl, rfl, rfl⟩

theorem applyCtorGuard_fields (fr : Frame) :
    (applyCtorGuard fr).kind = fr.kind ∧
    (applyCtorGuard fr).resumed = fr.resumed ∧
    (applyCtorGuard fr).isFCallAwait = fr.isFCallAwait ∧
    (applyCtorGuard fr).localsDecRefd = fr.localsDecRefd ∧
    (applyCtorGuard fr).hasThis = fr.hasThis ∧
    (applyCtorGuard fr).thisClsHasDtor = fr.thisClsHasDtor ∧
    (applyCtorGuard fr).whRunning = fr.whRunning ∧
    (applyCtorGuard fr).genEager = fr.genEager ∧
    (applyCtorGuard fr).genWhRunning = fr.genWhRunning ∧
    (applyCtorGuard fr).thisNoDestruct = (fr.thisNoDestruct || ctorGuard fr) := by
  unfold applyCtorGuard
  by_cases hg : ctorGuard fr = true <;> simp [hg]

/-- The latch/release behaviour of the per-kind dispatch: the release
routine runs only when the latch was clear; the latch afterwards is
"was set or ran now"; and under the conditions where the source reaches a
`decRefLocals()` call the latch is set on exit. -/
theorem tearDownBranch_latch (fr : Frame) (e d : Option Nat)
    (hwf : fr.resumed = true → fr.kind ≠ FuncKind.regular) :
    ((tearDownBranch fr e d).releasedNow = true → fr.localsDecRefd = false) ∧
    ((tearDownBranch fr e d).frame.localsDecRefd =
      (fr.localsDecRefd || (tearDownBranch fr e d).releasedNow)) ∧
    ((fr.resumed = false ∨ e.isSome = true ∨
        (fr.kind = FuncKind.asyncFunction ∧ fr.whRunning = true) ∨
        (fr.kind = FuncKind.asyncGenerator ∧
          (fr.genEager = true ∨ fr.genWhRunning = true)) ∨
        fr.kind = FuncKind.nonAsyncGenerator) →
      (tearDownBranch fr e d).frame.localsDecRefd = true) := by
  cases e <;>
    · unfold tearDownBranch
      split_ifs <;>
        refine ⟨?_, ?_, ?_⟩ <;>
          simp_all [decRefLocals_releasedNow, decRefLocals_frame_eq] <;>
            (try (intro hcond
                  rcases hcond with h | h | ⟨h, _⟩ | ⟨h, _⟩ | h <;> simp_all)) <;>
            (try (cases hb : fr.localsDecRefd <;> simp_all)) <;>
            (try (cases hk : fr.kind <;> simp_all))

theorem tearDownBranch_thisNoDestruct (fr : Frame) (e d : Option Nat) :
    (tearDownBranch fr e d).frame.thisNoDestruct = fr.thisNoDestruct := by
  cases e <;>
    · unfold tearDownBranch
      split_ifs <;> simp [decRefLocals_frame_eq]

theorem tearDownBranch_ranThisDtor (fr : Frame) (e d : Option Nat)
    (hrun : (tearDownBranch fr e d).ranThisDtor = true) :
    fr.thisNoDestruct = false := by
  revert hrun
  cases e <;>
    · unfold tearDownBranch
      split_ifs <;> simp [decRefLocals_ranThisDtor] <;> intro h <;> simp_all

theorem tearDownBranch_exn_regular (fr : Frame) (e d : Option Nat)
    (hres : fr.resumed = false) (hkind : fr.kind = FuncKind.regular) :
    (tearDownBranch fr e d).exn = e := by
  cases e <;>
    · unfold tearDownBranch
      simp [hres, hkind]

theorem tearDownBranch_null_exception (fr : Frame) (d : Option Nat) :
    (tearDownBranch fr none d).exn = none := by
  unfold tearDownBranch
  split_ifs <;> rfl

/-- C2 (amended): for every frame satisfying the source's `not_reached`
invariant (a resumed frame is an async function, async generator or
generator), torn down with a guest or null exception: the frame-locals
release routine runs only if the `localsDecRefd` latch was clear before the
call, the latch afterwards equals "was already set, or the routine ran now"
(so over a frame's lifetime the routine runs at most once), and the latch
is true on return in every case except a resumed async-function frame torn
down with a null (host) exception whose wait-handle is not running, or a
resumed async-generator frame with a null exception that is neither eagerly
executed nor has a running wait-handle — there teardown leaves the
suspended frame's locals alone, refuting the original "for every frame ...
the latch is true on return". -/
theorem tearDownFrame_locals_latch (fr : Frame) (prevFp : Option Frame)
    (e d : Option Nat)
    (hwf : fr.resumed = true → fr.kind ≠ FuncKind.regular) :
    ((tearDownFrame fr prevFp e d).releasedNow = true →
      fr.localsDecRefd = false) ∧
    ((tearDownFrame fr prevFp e d).frame.localsDecRefd =
      (fr.localsDecRefd || (tearDownFrame fr prevFp e d).releasedNow)) ∧
    ((fr.resumed = false ∨ e.isSome = true ∨
        (fr.kind = FuncKind.asyncFunction ∧ fr.whRunning = true) ∨
        (fr.kind = FuncKind.asyncGenerator ∧
          (fr.genEager = true ∨ fr.genWhRunning = true)) ∨
        fr.kind = FuncKind.nonAsyncGenerator) →
      (tearDownFrame fr prevFp e d).frame.localsDecRefd = true) := by
  obtain ⟨hf, hr, hd, hx, he⟩ := tearDownFrame_proj fr prevFp e d
  obtain ⟨hk, hres, hfa, hl, hth, hdt, hwh, hge, hgw, hnd⟩ :=
    applyCtorGuard_fields fr
  have hwf' : (applyCtorGuard fr).resumed = true →
      (applyCtorGuard fr).kind ≠ FuncKind.regular := by
    rw [hres, hk]; exact hwf
  obtain ⟨b1, b2, b3⟩ := tearDownBranch_latch (applyCtorGuard fr) e d hwf'
  refine ⟨?_, ?_, ?_⟩
  · rw [hr]
    intro hrel
    have hb := b1 hrel
    rw [hl] at hb
    exact hb
  · rw [hf, hr, b2, hl]
  · intro hcond
    rw [hf]
    apply b3
    rw [hres, hk, hwh, hge, hgw]
    exact hcond

/-- A resumed async-function frame whose wait-handle is not running and
whose locals have not yet been released. -/
def cexResumedAsyncFrame : Frame :=
  { id := 9, kind := FuncKind.asyncFunction, resumed := true,
    isFCallAwait := false, localsDecRefd := false, funcCls := false,
    hasThis := false, thisCtorIsFunc := false, thisClsHasDtor := false,
    thisNoDestruct := false, outerFpiOp := none, whRunning := false,
    genEager := false, genWhRunning := false, genFailEager := false,
    curOp := Op.other, soff := 0, funcBase := 0, ehtab := [] }

/-- C2 (counterexample to the claim as stated): tearing down a resumed
async-function frame with a null (host) exception while its wait-handle is
not running returns with the `localsDecRefd` latch still false and the
release routine not invoked — the source only calls `decRefLocals()` in
that arm when the wait-handle is running. -/
theorem tearDownFrame_latch_not_set :
    (tearDownFrame cexResumedAsyncFrame none none none).frame.localsDecRefd
        = false ∧
      (tearDownFrame cexResumedAsyncFrame none none none).releasedNow
        = false := by
  decide

/-- A regular, non-resumed constructor frame: every constructor-guard
condition holds, and the caller's FPI entry carries an `FPushCtor*`. -/
def ctorFrame : Frame :=
  { id := 3, kind := FuncKind.regular, resumed := false,
    isFCallAwait := false, localsDecRefd := false, funcCls := true,
    hasThis := true, thisCtorIsFunc := true, thisClsHasDtor := true,
    thisNoDestruct := false, outerFpiOp := some (some Op.fPushCtor),
    whRunning := false, genEager := false, genWhRunning := false,
    genFailEager := false, curOp := Op.other, soff := 4, funcBase := 10,
    ehtab := [] }

/-- Witness for `tearDownFrame_locals_latch`: on a concrete non-resumed
frame with a guest exception, the latch is true on return. -/
theorem tearDownFrame_locals_latch_witness :
    (ctorFrame.resumed = true → ctorFrame.kind ≠ FuncKind.regular) ∧
      (tearDownFrame ctorFrame none (some 5) none).frame.localsDecRefd
        = true :=
  ⟨by decide,
    (tearDownFrame_locals_latch ctorFrame none (some 5) none (by decide)).2.2
      (Or.inl (by decide))⟩

theorem ctorGuard_iff (fr : Frame) :
    ctorGuard fr = true ↔
      (fr.curOp ≠ Op.retC ∧ fr.localsDecRefd = false ∧ fr.funcCls = true ∧
        fr.hasThis = true ∧ fr.thisCtorIsFunc = true ∧
        fr.thisClsHasDtor = true ∧
        ∃ op, fr.outerFpiOp = some (some op) ∧ isFPushCtor op = true) := by
  unfold ctorGuard
  constructor
  · intro hg
    simp only [Bool.and_eq_true, Bool.not_eq_true'] at hg
    obtain ⟨⟨⟨⟨⟨⟨h1, h2⟩, h3⟩, h4⟩, h5⟩, h6⟩, h7⟩ := hg
    refine ⟨?_, h2, h3, h4, h5, h6, ?_⟩
    · intro hc
      rw [hc] at h1
      simp at h1
    · cases hop : fr.outerFpiOp with
      | none => rw [hop] at h7; simp at h7
      | some o =>
        cases o with
        | none => rw [hop] at h7; simp at h7
        | some op =>
          rw [hop] at h7
          exact ⟨op, rfl, h7⟩
  · rintro ⟨h1, h2, h3, h4, h5, h6, op, hop, hctor⟩
    simp only [Bool.and_eq_true, Bool.not_eq_true']
    refine ⟨⟨⟨⟨⟨⟨?_, h2⟩, h3⟩, h4⟩, h5⟩, h6⟩, ?_⟩
    · exact beq_eq_false_iff_ne.mpr h1
    · rw [hop]
      exact hctor

/-- C6 (confirmed): the frame's `this` is marked no-destruct (the guard
runs before any locals release) iff all of: the current opcode is not
`RetC`, `localsDecRefd` is not set, the function belongs to a class and is
the receiver's class's constructor, that class defines a destructor, and
the caller's FPI call-preparation region shows an `FPushCtor*` instruction;
consequently, when the guard holds the receiver's destructor is not invoked
during teardown, and for a (regular, non-resumed) constructor frame the
guest exception is returned unchanged, so the caller observes it. -/
theorem tearDownFrame_ctor_guard (fr : Frame) (prevFp : Option Frame)
    (e d : Option Nat) :
    ((tearDownFrame fr prevFp e d).frame.thisNoDestruct =
      (fr.thisNoDestruct || ctorGuard fr)) ∧
    (ctorGuard fr = true ↔
      (fr.curOp ≠ Op.retC ∧ fr.localsDecRefd = false ∧ fr.funcCls = true ∧
        fr.hasThis = true ∧ fr.thisCtorIsFunc = true ∧
        fr.thisClsHasDtor = true ∧
        ∃ op, fr.outerFpiOp = some (some op) ∧ isFPushCtor op = true)) ∧
    (ctorGuard fr = true →
      (tearDownFrame fr prevFp e d).ranThisDtor = false) ∧
    (ctorGuard fr = true → fr.kind = FuncKind.regular → fr.resumed = false →
      (tearDownFrame fr prevFp e d).exn = e) := by
  obtain ⟨hf, hr, hd, hx, he⟩ := tearDownFrame_proj fr prevFp e d
  obtain ⟨hk, hres, hfa, hl, hth, hdt, hwh, hge, hgw, hnd⟩ :=
    applyCtorGuard_fields fr
  refine ⟨?_, ctorGuard_iff fr, ?_, ?_⟩
  · rw [hf, tearDownBranch_thisNoDestruct, hnd]
  · intro hg
    rw [hd]
    cases hrun : (tearDownBranch (applyCtorGuard fr) e d).ranThisDtor with
    | false => rfl
    | true =>
      exfalso
      have hfalse := tearDownBranch_ranThisDtor (applyCtorGuard fr) e d hrun
      rw [hnd, hg] at hfalse
      simp at hfalse
  · intro hg hkind hresumed
    rw [hx]
    exact tearDownBranch_exn_regular (applyCtorGuard fr) e d
      (by rw [hres]; exact hresumed) (by rw [hk]; exact hkind)

/-- Witness for `tearDownFrame_ctor_guard`: for the concrete constructor
frame raising guest exception 5, the guard holds, the receiver's destructor
does not run, and the caller observes exception 5. -/
theorem tearDownFrame_ctor_guard_witness :
    ctorGuard ctorFrame = true ∧
      (tearDownFrame ctorFrame none (some 5) none).ranThisDtor = false ∧
      (tearDownFrame ctorFrame none (some 5) none).exn = some 5 :=
  ⟨by decide,
    (tearDownFrame_ctor_guard ctorFrame none (some 5) none).2.2.1 (by decide),
    (tearDownFrame_ctor_guard ctorFrame none (some 5) none).2.2.2 (by decide)
      (by decide) (by decide)⟩

/-- C7 (confirmed): a guest exception raised by a destructor while the
frame's locals are released is swallowed at the frame boundary
(`try { frame_free_locals_unwind(...) } catch (...) {}`): `tearDownFrame`
is insensitive to the destructor-raise oracle — frame flags, new `fp`/`pc`,
the returned exception and the event trace are identical whether the
release raised or returned normally, and no new fault is created
(`tearDownFrame` does not touch the fault stack at all). -/
theorem tearDownFrame_dtor_swallowed (fr : Frame) (prevFp : Option Frame)
    (e d1 d2 : Option Nat) :
    tearDownFrame fr prevFp e d1 = tearDownFrame fr prevFp e d2 := by
  unfold tearDownFrame
  rw [tearDownBranch_swallows (applyCtorGuard fr) e d1 d2]

/-- C9 (confirmed): for every frame, caller and destructor behaviour,
`tearDownFrame` with a null guest exception returns a null exception — on
every path the exception is only ever consumed, never created — so the
host-exception driver's `assertx(phpException == nullptr)` after teardown
never fires.  (A resumed frame of a regular function aborts in
`not_reached()` before returning at all.) -/
theorem tearDownFrame_null_exception (fr : Frame) (prevFp : Option Frame)
    (d : Option Nat) :
    (tearDownFrame fr prevFp none d).exn = none := by
  obtain ⟨hf, hr, hd, hx, he⟩ := tearDownFrame_proj fr prevFp none d
  rw [hx, tearDownBranch_null_exception]

/-! ## Drivers: `unwindPhp` and `unwindCpp` -/

/-- The unwinder-visible execution context: the fault stack (list head =
stack top, i.e. `back()`), the VM nesting depth (`m_nestedVMs.size()`), the
`m_unwindingCppException` flag, and the thread's pending host exception
(`ThreadInfo::s_threadInfo->m_pendingException`, summarised by an id). -/
structure Ctx where
  faults : List Fault
  nestedVMs : Nat
  unwindingCpp : Bool
  pending : Option Nat
deriving DecidableEq, Repr

/-- The skip condition of the guest driver's handler search (unwind.cpp
lines 503-506): a pending host exception on the thread, or a frame whose
locals were already released.  Note it does not read
`m_unwindingCppException`. -/
def skipHandlerSearch (ctx : Ctx) (fr : Frame) : Bool :=
  ctx.pending.isSome || fr.localsDecRefd

/-- Modelled from the spec: `Func::findEH` lives outside unwind.cpp.  Per
the spec it returns the innermost protected region whose bytecode range
contains the offset; the emitter lists parents before children, so the last
covering entry of the table is the innermost. -/
def findEH (tab : List EHEnt) (off : Int) : Option EHEnt :=
  (tab.filter fun e => decide (e.base ≤ off) && decide (off < e.past)).getLast?

/-- `g_context->m_faults.back() = fault` (list head = top). -/
def replaceTop (faults : List Fault) (f : Fault) : List Fault :=
  match faults with
  | [] => []
  | _ :: rest => f :: rest

/-- Result of the guest driver's inner loop. -/
inductive InnerResult where
  | resume (pc : Int) (heap : Heap) (faults : List Fault) (fault : Fault)
  | propagate (heap : Heap) (faults : List Fault) (fault : Fault)
deriving DecidableEq, Repr

/-- The guest driver's inner loop (unwind.cpp lines 496-527): skip handler
search when the thread has a pending host exception or the frame's locals
are released (the `continue` jumps to the do-while *condition*, so
`chainFaults` still runs); otherwise find the innermost covering handler
entry and consult `checkHandlers` — on `ResumeVM`, write the updated fault
to the stack top and return; on `Propagate` (or no covering entry), chain,
and repeat while a merge occurred.  Fuelled: each merge shortens the fault
stack, so `faults.length + 1` fuel suffices. -/
def innerLoop (ctx : Ctx) (fr : Frame) (pc : Int) (ro : Int) :
    Heap → List Fault → Fault → Nat → InnerResult
  | heap, faults, fault, 0 => .propagate heap faults fault
  | heap, faults, fault, fuel + 1 =>
    match
      (if skipHandlerSearch ctx fr then none
       else
         match findEH fr.ehtab ro with
         | none => none
         | some eh =>
           some (checkHandlers fr.ehtab eh fault.handledCount pc))
    with
    | some (UnwindAction.ResumeVM, pc', hc') =>
      .resume pc' heap (replaceTop faults { fault with handledCount := hc' })
        { fault with handledCount := hc' }
    | some (UnwindAction.Propagate, _, hc') =>
      let c := chainFaults heap faults { fault with handledCount := hc' }
      if c.merged then innerLoop ctx fr pc ro c.heap c.faults c.fault fuel
      else .propagate c.heap c.faults c.fault
    | none =>
      let c := chainFaults heap faults fault
      if c.merged then innerLoop ctx fr pc ro c.heap c.faults c.fault fuel
      else .propagate c.heap c.faults c.fault

/-- The pure chaining loop: `do { } while (chainFaults(fault))` with the
handler search skipped every iteration. -/
def chainLoop : Heap → List Fault → Fault → Nat → Heap × List Fault × Fault
  | heap, faults, fault, 0 => (heap, faults, fault)
  | heap, faults, fault, fuel + 1 =>
    let c := chainFaults heap faults fault
    if c.merged then chainLoop c.heap c.faults c.fault fuel
    else (c.heap, c.faults, c.fault)

/-- Binding a freshly thrown fault (unwind.cpp lines 451-470): when
`raiseOffset` is unbound, bind `(raiseNesting, raiseFrame, raiseOffset)`
to the current nesting, frame and pc, zero `handledCount`, and request
discarding of stack temporaries. -/
def bindFault (ctx : Ctx) (fr : Frame) (pcOff : Int) (fault : Fault) :
    Fault × Bool :=
  match fault.raiseOffset with
  | none =>
    let bound : Fault :=
      { fault with raiseNesting := some ctx.nestedVMs,
                   raiseFrame := some fr.id, raiseOffset := some pcOff,
                   handledCount := 0 }
    (bound, true)
  | some _ => (fault, false)

/-- Outcome of one outer iteration of `unwindPhp`: the VM resumes at a
handler; or the frame was torn down and the exception consumed (fault
popped, driver returns); or the frame was torn down and the fault, with
raise fields reset, continues in the caller. -/
inductive PhpStep where
  | resumed (pc : Int) (heap : Heap) (faults : List Fault) (fault : Fault)
      (events : List Event)
  | consumed (td : TearResult) (heap : Heap) (faults : List Fault)
      (events : List Event)
  | torn (td : TearResult) (heap : Heap) (faults : List Fault) (fault : Fault)
      (events : List Event)
deriving DecidableEq, Repr

/-- A fault whose raise fields were restored to the sentinels and whose
`handledCount` was zeroed (unwind.cpp lines 541-544). -/
def resetFault (e : Nat) : Fault :=
  { userException := e, raiseFrame := none, raiseOffset := none,
    raiseNesting := none, handledCount := 0 }

/-- One outer iteration of `unwindPhp` (unwind.cpp lines 449-546) for the
current frame: bind the fault if freshly thrown (and discard stack
temporaries), run the inner handler-search/chaining loop, then either
resume the VM at a handler, or tear the frame down — popping the fault if
teardown consumed the exception, else resetting the raise fields and
writing the fault back to the stack top. -/
def unwindPhpStep (ctx : Ctx) (fr : Frame) (prevFp : Option Frame)
    (pcOff : Int) (heap : Heap) (fault0 : Fault) (dtorRaise : Option Nat) :
    PhpStep :=
  match innerLoop ctx fr pcOff
      ((bindFault ctx fr pcOff fault0).1.raiseOffset.getD pcOff) heap
      ctx.faults (bindFault ctx fr pcOff fault0).1
      (ctx.faults.length + 1) with
  | .resume pc' heap' faults' fault' =>
    .resumed pc' heap' faults' fault'
      (if (bindFault ctx fr pcOff fault0).2 then [Event.discardTemps] else [])
  | .propagate heap' faults' fault' =>
    match tearDownFrame fr prevFp (some fault'.userException) dtorRaise,
        (tearDownFrame fr prevFp (some fault'.userException) dtorRaise).exn
      with
    | td, none =>
      .consumed td heap' faults'.tail
        ((if (bindFault ctx fr pcOff fault0).2 then [Event.discardTemps]
          else []) ++ td.events)
    | td, some e2 =>
      .torn td heap' (replaceTop faults' (resetFault e2)) (resetFault e2)
        ((if (bindFault ctx fr pcOff fault0).2 then [Event.discardTemps]
          else []) ++ td.events)

/-- The per-frame fault-release loop of `unwindCpp` (unwind.cpp lines
603-609): pop records from the top of the fault stack while they were
raised in this frame at the current nesting, decreffing each pinned guest
exception. -/
def popFrameFaults (nest frId : Nat) : List Fault → List Fault × List Event
  | [] => ([], [])
  | f :: rest =>
    if f.raiseFrame = some frId ∧ f.raiseNesting = some nest then
      match popFrameFaults nest frId rest with
      | (fs, evs) => (fs, Event.decRefFaultExn f.userException :: evs)
    else (f :: rest, [])

/-- One frame of `unwindCpp`'s loop (unwind.cpp lines 594-616): release the
faults pinned to this frame, discard stack temporaries, then tear the
frame down with a null guest exception. -/
def unwindCppFrame (ctx : Ctx) (fr : Frame) (prevFp : Option Frame)
    (dtorRaise : Option Nat) : Ctx × TearResult × List Event :=
  ({ ctx with faults := (popFrameFaults ctx.nestedVMs fr.id ctx.faults).1 },
    tearDownFrame fr prevFp none dtorRaise,
    (popFrameFaults ctx.nestedVMs fr.id ctx.faults).2 ++
      [Event.discardTemps] ++
      (tearDownFrame fr prevFp none dtorRaise).events)

/-- The frame loop of `unwindCpp`: process the chain innermost-out until
`fp` is null. -/
def unwindCppFrames (dtorRaise : Option Nat) :
    Ctx → List Frame → Ctx × List Event
  | ctx, [] => (ctx, [])
  | ctx, fr :: rest =>
    ((unwindCppFrames dtorRaise
        (unwindCppFrame ctx fr rest.head? dtorRaise).1 rest).1,
      (unwindCppFrame ctx fr rest.head? dtorRaise).2.2 ++
        (unwindCppFrames dtorRaise
          (unwindCppFrame ctx fr rest.head? dtorRaise).1 rest).2)

/-- `unwindCpp(exception)` (unwind.cpp lines 576-621): the source asserts
`m_unwindingCppException` is clear on entry, sets it, and a `SCOPE_EXIT`
clears it on every exit path (including the final rethrow, which the guard
wraps); between those the member-instruction intermediates are cleared and
the frame loop runs; finally the host exception is rethrown to the outer
nesting. -/
def unwindCpp (ctx : Ctx) (chain : List Frame) (throwOp : Op)
    (dtorRaise : Option Nat) : Ctx × List Event :=
  ({ (unwindCppFrames dtorRaise { ctx with unwindingCpp := true } chain).1
      with unwindingCpp := false },
    (if isMemberOp throwOp then [Event.clearMemberRefs] else []) ++
      (unwindCppFrames dtorRaise { ctx with unwindingCpp := true } chain).2 ++
      [Event.rethrowHost])

theorem unwindCppFrame_preserves_flag (ctx : Ctx) (fr : Frame)
    (prevFp : Option Frame) (d : Option Nat) :
    (unwindCppFrame ctx fr prevFp d).1.unwindingCpp = ctx.unwindingCpp := rfl

theorem unwindCppFrames_preserve_flag (d : Option Nat) :
    ∀ (chain : List Frame) (ctx : Ctx),
      (unwindCppFrames d ctx chain).1.unwindingCpp = ctx.unwindingCpp := by
  intro chain
  induction chain with
  | nil => intro ctx; rfl
  | cons fr rest ih =>
    intro ctx
    exact (ih (unwindCppFrame ctx fr rest.head? d).1).trans
      (unwindCppFrame_preserves_flag ctx fr rest.head? d)

/-- C3 (amended): the host-exception driver sets `unwindingCppException` on
entry and its scoped guard clears it on every exit path; the frame loop
never touches the flag, so it stays set while the driver runs.  However,
the guest driver's handler search is disabled by the *thread's pending
exception* or the frame's released-locals latch — the `unwindingHost` flag
itself is not consulted: with no pending thread exception and an intact
frame, handler search proceeds even while the flag is set (see the
counterexample, where a Catch handler is entered). -/
theorem unwindCpp_flag (ctx : Ctx) (chain : List Frame) (op : Op)
    (d : Option Nat) (hentry : ctx.unwindingCpp = false) :
    (unwindCpp ctx chain op d).1.unwindingCpp = false ∧
    (unwindCppFrames d { ctx with unwindingCpp := true } chain).1.unwindingCpp
      = true ∧
    (∀ ctx2 fr, ctx2.unwindingCpp = true → ctx2.pending = none →
      fr.localsDecRefd = false → skipHandlerSearch ctx2 fr = false) := by
  refine ⟨rfl, ?_, ?_⟩
  · rw [unwindCppFrames_preserve_flag]
  · intro ctx2 fr h1 h2 h3
    unfold skipHandlerSearch
    rw [h2, h3]
    rfl

/-- An idle context: empty fault stack, nesting 0, no flags. -/
def emptyCtx : Ctx :=
  { faults := [], nestedVMs := 0, unwindingCpp := false, pending := none }

/-- Witness for `unwindCpp_flag` at a concrete context and one-frame chain:
the flag is clear on entry and clear again after the driver returns. -/
theorem unwindCpp_flag_witness :
    emptyCtx.unwindingCpp = false ∧
      (unwindCpp emptyCtx [cexResumedAsyncFrame] Op.other
          none).1.unwindingCpp = false :=
  ⟨rfl,
    (unwindCpp_flag emptyCtx [cexResumedAsyncFrame] Op.other none rfl).1⟩

/-- A `Catch` entry covering offsets `[10, 30)` with handler offset 40. -/
def catchEnt : EHEnt :=
  { type := EHType.Catch, base := 10, past := 30, handler := 40,
    parentIndex := -1 }

/-- A frame of a regular function whose handler table is `[catchEnt]`. -/
def guardedFrame : Frame :=
  { id := 4, kind := FuncKind.regular, resumed := false,
    isFCallAwait := false, localsDecRefd := false, funcCls := false,
    hasThis := false, thisCtorIsFunc := false, thisClsHasDtor := false,
    thisNoDestruct := false, outerFpiOp := none, whRunning := false,
    genEager := false, genWhRunning := false, genFailEager := false,
    curOp := Op.other, soff := 0, funcBase := 0, ehtab := [catchEnt] }

/-- A fault already bound to frame 4, nesting 0, offset 20. -/
def boundFault : Fault :=
  { userException := 21, raiseFrame := some 4, raiseOffset := some 20,
    raiseNesting := some 0, handledCount := 0 }

/-- A context whose `unwindingCpp` flag is set but whose thread has no
pending exception, holding `boundFault`. -/
def flagCtx : Ctx :=
  { faults := [boundFault], nestedVMs := 0, unwindingCpp := true,
    pending := none }

/-- C3 (counterexample to the claim as stated): with `unwindingCpp` set on
the context but no pending thread exception, the guest driver still enters
the `Catch` handler — `unwindPhpStep` resumes the VM at the handler offset
40.  Handler search is therefore not disabled by the `unwindingHost` flag
alone. -/
theorem handler_entered_while_flag_set :
    flagCtx.unwindingCpp = true ∧
    unwindPhpStep flagCtx guardedFrame none 20 [] boundFault none =
      PhpStep.resumed 40 [] [{ boundFault with handledCount := 1 }]
        { boundFault with handledCount := 1 } [] := by
  decide

theorem popFrameFaults_spec (nest frId : Nat) (faults : List Fault) :
    popFrameFaults nest frId faults =
      (faults.dropWhile
          (fun f => decide (f.raiseFrame = some frId) &&
            decide (f.raiseNesting = some nest)),
        (faults.takeWhile
            (fun f => decide (f.raiseFrame = some frId) &&
              decide (f.raiseNesting = some nest))).map
          (fun f => Event.decRefFaultExn f.userException)) := by
  induction faults with
  | nil => rfl
  | cons f rest ih =>
    unfold popFrameFaults
    by_cases hc : f.raiseFrame = some frId ∧ f.raiseNesting = some nest
    · rw [if_pos hc, ih]
      simp [List.dropWhile_cons, List.takeWhile_cons, hc.1, hc.2]
    · rw [if_neg hc]
      have hb : (decide (f.raiseFrame = some frId) &&
          decide (f.raiseNesting = some nest)) = false := by
        by_cases h1 : f.raiseFrame = some frId
        · by_cases h2 : f.raiseNesting = some nest
          · exact absurd ⟨h1, h2⟩ hc
          · simp [h2]
        · simp [h1]
      simp [List.dropWhile_cons, List.takeWhile_cons, hb]

/-- C8 (amended): for each frame processed during host-exception unwinding,
exactly the maximal contiguous run of fault records at the *top* of the
fault stack whose `raiseFrame` is this frame and whose `raiseNesting` is
the current nesting is released (each pinned guest exception decreffed, in
order) and removed, and this happens before the frame's stack temporaries
are discarded and before teardown.  (The original claim said *every*
matching record anywhere on the stack; a matching record buried beneath a
non-matching one survives, see the counterexample.) -/
theorem unwindCppFrame_releases_frame_faults (ctx : Ctx) (fr : Frame)
    (prevFp : Option Frame) (d : Option Nat) :
    (unwindCppFrame ctx fr prevFp d).1.faults =
      ctx.faults.dropWhile
        (fun f => decide (f.raiseFrame = some fr.id) &&
          decide (f.raiseNesting = some ctx.nestedVMs)) ∧
    (unwindCppFrame ctx fr prevFp d).2.2 =
      (ctx.faults.takeWhile
          (fun f => decide (f.raiseFrame = some fr.id) &&
            decide (f.raiseNesting = some ctx.nestedVMs))).map
        (fun f => Event.decRefFaultExn f.userException) ++
        [Event.discardTemps] ++ (tearDownFrame fr prevFp none d).events := by
  unfold unwindCppFrame
  rw [popFrameFaults_spec]
  exact ⟨by trivial, by trivial⟩

/-- A fault pinned to frame 1 at nesting 0, lying *beneath* a record of a
different frame. -/
def buriedFault : Fault :=
  { userException := 11, raiseFrame := some 1, raiseOffset := some 7,
    raiseNesting := some 0, handledCount := 0 }

/-- A fault pinned to a different frame (id 2), on top of the stack. -/
def topOtherFault : Fault :=
  { userException := 12, raiseFrame := some 2, raiseOffset := some 9,
    raiseNesting := some 0, handledCount := 0 }

/-- A plain regular frame with id 1. -/
def cppFrame1 : Frame :=
  { id := 1, kind := FuncKind.regular, resumed := false,
    isFCallAwait := false, localsDecRefd := false, funcCls := false,
    hasThis := false, thisCtorIsFunc := false, thisClsHasDtor := false,
    thisNoDestruct := false, outerFpiOp := none, whRunning := false,
    genEager := false, genWhRunning := false, genFailEager := false,
    curOp := Op.other, soff := 0, funcBase := 0, ehtab := [] }

/-- Fault stack with the matching `buriedFault` beneath the non-matching
`topOtherFault`, during host unwinding at nesting 0. -/
def buriedCtx : Ctx :=
  { faults := [topOtherFault, buriedFault], nestedVMs := 0,
    unwindingCpp := true, pending := none }

/-- C8 (counterexample to the claim as stated): `buriedFault` matches
frame 1 at the current nesting but lies beneath the non-matching
`topOtherFault`; processing frame 1 removes nothing, so a matching record
"anywhere on the fault stack" is *not* released. -/
theorem unwindCppFrame_leaves_buried_fault :
    buriedFault.raiseFrame = some cppFrame1.id ∧
    buriedFault.raiseNesting = some 0 ∧
    buriedFault ∈ (unwindCppFrame buriedCtx cppFrame1 none none).1.faults := by
  decide

theorem innerLoop_skip (ctx : Ctx) (fr : Frame) (pc ro : Int)
    (hskip : skipHandlerSearch ctx fr = true) :
    ∀ (fuel : Nat) (heap : Heap) (faults : List Fault) (fault : Fault),
      innerLoop ctx fr pc ro heap faults fault fuel =
        InnerResult.propagate (chainLoop heap faults fault fuel).1
          (chainLoop heap faults fault fuel).2.1
          (chainLoop heap faults fault fuel).2.2 := by
  intro fuel
  induction fuel with
  | zero => intro heap faults fault; rfl
  | succ n ih =>
    intro heap faults fault
    unfold innerLoop chainLoop
    simp only [hskip, if_true]
    by_cases hm : (chainFaults heap faults fault).merged
    · simp only [hm, if_true]
      exact ih _ _ _
    · simp only [hm, if_false]
      simp at hm
      simp [hm]

/-- The fault-chaining loop run to exhaustion on the fault stack, as the
guest driver does for a frame whose handler search is skipped. -/
def chainedFault (ctx : Ctx) (heap : Heap) (fault : Fault) :
    Heap × List Fault × Fault :=
  chainLoop heap ctx.faults fault (ctx.faults.length + 1)

/-- The teardown the guest driver performs after chaining, with the merged
fault's guest exception. -/
def skipTear (ctx : Ctx) (fr : Frame) (prevFp : Option Frame) (heap : Heap)
    (fault : Fault) (d : Option Nat) : TearResult :=
  tearDownFrame fr prevFp (some (chainedFault ctx heap fault).2.2.userException)
    d

/-- The behaviour the guest driver exhibits for a frame whose handler
search is skipped: chain to exhaustion, then tear the frame down — no
handler entry. -/
def skipStepSpec (ctx : Ctx) (fr : Frame) (prevFp : Option Frame)
    (heap : Heap) (fault : Fault) (d : Option Nat) : PhpStep :=
  match (skipTear ctx fr prevFp heap fault d).exn with
  | none =>
    PhpStep.consumed (skipTear ctx fr prevFp heap fault d)
      (chainedFault ctx heap fault).1
      (chainedFault ctx heap fault).2.1.tail
      (skipTear ctx fr prevFp heap fault d).events
  | some e2 =>
    PhpStep.torn (skipTear ctx fr prevFp heap fault d)
      (chainedFault ctx heap fault).1
      (replaceTop (chainedFault ctx heap fault).2.1 (resetFault e2))
      (resetFault e2)
      (skipTear ctx fr prevFp heap fault d).events

theorem chainFaults_merges_matching (heap : Heap) (t prev : Fault)
    (rest : List Fault) (fault : Fault)
    (h1 : fault.raiseNesting = prev.raiseNesting)
    (h2 : fault.raiseFrame = prev.raiseFrame) :
    (chainFaults heap (t :: prev :: rest) fault).merged = true ∧
    (chainFaults heap (t :: prev :: rest) fault).fault.handledCount =
      prev.handledCount := by
  have hcond : fault.raiseNesting = prev.raiseNesting ∧
      fault.raiseFrame = prev.raiseFrame := ⟨h1, h2⟩
  constructor <;> simp [chainFaults, if_pos hcond]

/-- C10 (confirmed): when the guest driver skips handler search for a frame
(pending host exception on the thread, or the frame's locals already
released), the `continue` lands on the do-while condition, so the Exception
Chainer is still invoked: the step equals the pure chaining loop followed
by frame teardown (no handler is entered), and when the record beneath the
top was raised at the same nesting and frame, the first chaining merges it
and restores its `handledCount` — before the frame is torn down. -/
theorem unwindPhpStep_skip_still_chains (ctx : Ctx) (fr : Frame)
    (prevFp : Option Frame) (pcOff : Int) (heap : Heap) (fault0 : Fault)
    (d : Option Nat) (ro : Int)
    (hskip : skipHandlerSearch ctx fr = true)
    (hbound : fault0.raiseOffset = some ro) :
    unwindPhpStep ctx fr prevFp pcOff heap fault0 d =
      skipStepSpec ctx fr prevFp heap fault0 d ∧
    (∀ t prev rest, ctx.faults = t :: prev :: rest →
      fault0.raiseNesting = prev.raiseNesting →
      fault0.raiseFrame = prev.raiseFrame →
      (chainFaults heap ctx.faults fault0).merged = true ∧
      (chainFaults heap ctx.faults fault0).fault.handledCount =
        prev.handledCount) := by
  constructor
  · have hbf : bindFault ctx fr pcOff fault0 = (fault0, false) := by
      unfold bindFault
      rw [hbound]
    unfold unwindPhpStep
    rw [hbf]
    dsimp only
    rw [hbound]
    dsimp only [Option.getD]
    rw [innerLoop_skip ctx fr pcOff ro hskip]
    unfold skipStepSpec skipTear chainedFault
    cases hexn :
        (tearDownFrame fr prevFp
          (some (chainLoop heap ctx.faults fault0
            (ctx.faults.length + 1)).2.2.userException) d).exn with
    | none => simp [hexn]
    | some e2 => simp [hexn]
  · intro t prev rest hshape hn hf
    rw [hshape]
    exact chainFaults_merges_matching heap t prev rest fault0 hn hf

/-- The context used by the C10 witness: the thread has a pending host
exception, so handler search is skipped. -/
def skipCtx : Ctx :=
  { faults := [cexTopFault, cexPrevFault], nestedVMs := 0,
    unwindingCpp := false, pending := some 1 }

/-- Witness for `unwindPhpStep_skip_still_chains`: handler search is
skipped for the concrete context (pending host exception), and the chainer
still merges the two matching records. -/
theorem unwindPhpStep_skip_witness :
    skipHandlerSearch skipCtx guardedFrame = true ∧
      (chainFaults [] skipCtx.faults cexTopFault).merged = true :=
  ⟨by decide,
    ((unwindPhpStep_skip_still_chains skipCtx guardedFrame none 20 []
        cexTopFault none 20 (by decide) (by decide)).2 cexTopFault
        cexPrevFault [] rfl (by decide) (by decide)).1⟩

end Unwind
